import Mathlib

/-!
Verification development for the Oriath-Scales price-checking companion.

Shallow embedding of the core modules:
strings are `List Char`; the JavaScript regex-replacement pipeline of
`normalizeStatText` is embedded as a composition of character scanners;
`Date.now()` becomes an explicit `now : Nat` (milliseconds) parameter;
the Fuse.js fuzzy indexes are abstracted as functions returning the
top-scored candidate together with its score scaled by 1000 (the source
thresholds 0.8 and 0.6 become 800 and 600); fallible parsing returns
`Option`.
-/

/-! ## Characters and basic string operations -/

/-- JavaScript whitespace class for the ASCII range (space, tab, LF, VT, FF, CR),
as matched by the regex class used in the source. -/
def isWs (c : Char) : Bool :=
  c == ' ' || c == '\t' || c == '\n' || c == '\r' || c == Char.ofNat 11 || c == Char.ofNat 12

/-- `String.prototype.toLowerCase` restricted to the ASCII range (the stat
catalog and item text are ASCII). -/
def toLowerChar (c : Char) : Char :=
  if 65 ≤ c.toNat ∧ c.toNat ≤ 90 then Char.ofNat (c.toNat + 32) else c

/-- `String.prototype.includes`: does `needle` occur contiguously in `hay`? -/
def containsSeq (needle : List Char) : List Char → Bool
  | [] => needle.isEmpty
  | c :: rest => needle.isPrefixOf (c :: rest) || containsSeq needle rest

/-- `String.prototype.split(sep)` for a one-character separator. -/
def splitOnChar (sep : Char) : List Char → List (List Char)
  | [] => [[]]
  | c :: rest =>
    match splitOnChar sep rest with
    | [] => [[c]]
    | h :: t => if c == sep then [] :: h :: t else (c :: h) :: t

/-- `String.prototype.trim`: drop whitespace from both ends. -/
def trimEnds (l : List Char) : List Char :=
  (l.dropWhile isWs).rdropWhile isWs

/-! ## The text normalizer (`normalizeStatText`)

Each stage embeds one `.replace(...)` call of `src/src/lib/utils/stats.ts`
lines 195-210 (and the variant of `stat-utils.ts` lines 358-375), in the
exact order of the source.  The scanners reproduce the JavaScript regex
engine's leftmost scan with global replacement. -/

/-- Stage `replace(/\+(?=\d)/g, '')`: drop a `+` immediately preceding a digit. -/
def noPlusNum : List Char → List Char
  | [] => []
  | '+' :: c :: rest =>
    if c.isDigit then c :: noPlusNum rest else '+' :: noPlusNum (c :: rest)
  | c :: rest => c :: noPlusNum rest

/-- Stage `replace(/\[|\]/g, '')`: drop square brackets. -/
def noBrackets (l : List Char) : List Char :=
  l.filter (fun c => !(c == '[' || c == ']'))

/-- Scanner for `replace(/\|.*?(?=\s|$)/g, '')`: a `|` together with the
following run of non-whitespace characters is removed (the lazy `.*?` with
a whitespace-or-end lookahead consumes exactly up to the next whitespace).
The Boolean flag records whether the scanner is inside a removed run. -/
def noPipesGo : Bool → List Char → List Char
  | _, [] => []
  | true, c :: rest => if isWs c then c :: noPipesGo false rest else noPipesGo true rest
  | false, c :: rest => if c == '|' then noPipesGo true rest else c :: noPipesGo false rest

def noPipes (l : List Char) : List Char := noPipesGo false l

/-- Scanner for `replace(/[+-]?\d+\.?\d*/g, '#')`.  Mode 0 looks for the
start of a number (a digit, or a sign directly followed by a digit) and
emits `#`; mode 1 consumes the integer digits and an optional decimal
point; mode 2 consumes fractional digits. -/
def numHashGo : Nat → List Char → List Char
  | _, [] => []
  | 0, c :: rest =>
    if c.isDigit then '#' :: numHashGo 1 rest
    else if c == '+' || c == '-' then
      match rest with
      | [] => [c]
      | d :: rest2 => if d.isDigit then '#' :: numHashGo 1 rest2 else c :: numHashGo 0 (d :: rest2)
    else c :: numHashGo 0 rest
  | 1, c :: rest =>
    if c.isDigit then numHashGo 1 rest
    else if c == '.' then numHashGo 2 rest
    else if c == '+' || c == '-' then
      match rest with
      | [] => [c]
      | d :: rest2 => if d.isDigit then '#' :: numHashGo 1 rest2 else c :: numHashGo 0 (d :: rest2)
    else c :: numHashGo 0 rest
  | _, c :: rest =>
    if c.isDigit then numHashGo 2 rest
    else if c == '+' || c == '-' then
      match rest with
      | [] => [c]
      | d :: rest2 => if d.isDigit then '#' :: numHashGo 1 rest2 else c :: numHashGo 0 (d :: rest2)
    else c :: numHashGo 0 rest

def numHash (l : List Char) : List Char := numHashGo 0 l

/-- Scanner for `replace(/\s+/g, ' ')`: collapse each whitespace run to a
single space.  The flag records whether the previous character was part of
a run whose single space was already emitted. -/
def oneSpaceGo : Bool → List Char → List Char
  | _, [] => []
  | true, c :: rest => if isWs c then oneSpaceGo true rest else c :: oneSpaceGo false rest
  | false, c :: rest => if isWs c then ' ' :: oneSpaceGo true rest else c :: oneSpaceGo false rest

def oneSpace (l : List Char) : List Char := oneSpaceGo false l

/-- No two adjacent whitespace characters (the shape guaranteed by the
whitespace-collapsing stage). -/
def NoWsPair (l : List Char) : Prop :=
  List.Chain' (fun a b => ¬(isWs a = true ∧ isWs b = true)) l

/-- Anchored, single `replace(/^p/, '')` for a literal prefix `p`. -/
def dropLit (p l : List Char) : List Char :=
  if p.isPrefixOf l then l.drop p.length else l

def addsChars : List Char := "adds ".toList
def gainChars : List Char := "gain ".toList
def youChars : List Char := "you ".toList
def implChars : List Char := "(implicit)".toList
def bareImplChars : List Char := "implicit".toList

/-- `replace(/\s*\(implicit\)\s*$/i, '')` (the `stats.ts` variant): if the
input ends with optional whitespace, the literal `(implicit)`
(case-insensitively), and optional whitespace, that whole tail — including
the whitespace run immediately before the marker, consumed by the greedy
leading `\s*` of the leftmost match — is removed once. -/
def noImplicitEnd (l : List Char) : List Char :=
  let r := l.rdropWhile isWs
  if (r.rtake implChars.length).map toLowerChar = implChars then
    (r.rdrop implChars.length).rdropWhile isWs
  else l

/-- `replace(/\s*\(implicit\)$/, '')` (the `stat-utils.ts` variant): no
trailing whitespace allowed after the marker, case-sensitive. -/
def noImplicitEndSU (l : List Char) : List Char :=
  if l.rtake implChars.length = implChars then
    (l.rdrop implChars.length).rdropWhile isWs
  else l

/-- `normalizeStatText` of `src/src/lib/utils/stats.ts` lines 195-210:
lowercase, drop `+` before digits, drop brackets, drop pipe sections,
collapse numbers to `#`, collapse whitespace, strip the filler prefixes
`adds `/`gain `/`you ` once each, strip a trailing `(implicit)` marker,
and trim. -/
def normalizeStatText (l : List Char) : List Char :=
  if l.isEmpty then []
  else
    trimEnds (noImplicitEnd (dropLit youChars (dropLit gainChars (dropLit addsChars
      (oneSpace (numHash (noPipes (noBrackets (noPlusNum (l.map toLowerChar))))))))))

/-- `normalizeStatText` of `src/src/lib/utils/stat-utils.ts` lines 358-375:
same stages, but the `(implicit)` suffix strip comes before the prefix
strips and uses the anchored, case-sensitive pattern. -/
def normalizeStatTextSU (l : List Char) : List Char :=
  if l.isEmpty then []
  else
    trimEnds (dropLit youChars (dropLit gainChars (dropLit addsChars
      (noImplicitEndSU (oneSpace (numHash (noPipes (noBrackets (noPlusNum (l.map toLowerChar))))))))))

/-! ## Stat catalog model and the resolver (`StatsManager.searchStats`) -/

structure StatOption where
  id : List Char
  text : List Char
  type : List Char
deriving DecidableEq

def implicitType : List Char := "Implicit".toList

/-- Scanner for `cleanedText.replace(/\s*\(implicit\)/gi, '')` of
`analyzeSearchContext` (the interpolated indicator turns its parentheses
into a regex group, so the pattern matches optional whitespace followed by
the literal `(implicit)`).  Fuel-driven: one unit of fuel per scan
position, initialized to the input length (each step consumes at least one
character, so the fuel never runs out on the initial call). -/
def stripParenImplicitGo : Nat → List Char → List Char
  | 0, l => l
  | _, [] => []
  | fuel + 1, c :: rest =>
    let after := (c :: rest).dropWhile isWs
    if (after.take implChars.length).map toLowerChar = implChars then
      stripParenImplicitGo fuel (after.drop implChars.length)
    else c :: stripParenImplicitGo fuel rest

def stripParenImplicit (l : List Char) : List Char := stripParenImplicitGo l.length l

/-- Scanner for `cleanedText.replace(/\s*implicit\s*/gi, ' ')` of
`analyzeSearchContext`: a bare `implicit` word with surrounding whitespace
is replaced by a single space. -/
def stripBareImplicitGo : Nat → List Char → List Char
  | 0, l => l
  | _, [] => []
  | fuel + 1, c :: rest =>
    let after := (c :: rest).dropWhile isWs
    if (after.take bareImplChars.length).map toLowerChar = bareImplChars then
      ' ' :: stripBareImplicitGo fuel ((after.drop bareImplChars.length).dropWhile isWs)
    else c :: stripBareImplicitGo fuel rest

def stripBareImplicit (l : List Char) : List Char := stripBareImplicitGo l.length l

structure SearchContext where
  searchTerm : List Char
  normalizedTerm : List Char
  isImplicitOnly : Bool
  originalText : List Char
deriving DecidableEq

/-- `StatsManager.analyzeSearchContext` of `stats.ts` lines 125-145. -/
def analyzeSearchContext (statText : List Char) : SearchContext :=
  let lowerText := statText.map toLowerChar
  let isImplicitOnly := containsSeq implChars lowerText
  let cleanedText := stripBareImplicit (stripParenImplicit statText)
  ⟨trimEnds cleanedText, normalizeStatText cleanedText, isImplicitOnly, statText⟩

/-- `StatsManager.findExactMatch` of `stats.ts` lines 183-187, including
the `exactMatch?.id || null` coercion under which an empty-string id is
indistinguishable from "no match". -/
def findExactMatch (normalizedInput : List Char) (stats : List StatOption) :
    Option (List Char) :=
  match stats.find? (fun s => normalizeStatText s.text == normalizedInput) with
  | some s => if s.id.isEmpty then none else some s.id
  | none => none

structure SearchResult where
  id : Option (List Char)
  exactMatch : Bool
  score : Option Nat
deriving DecidableEq

/-- `CONFIG.SEARCH_THRESHOLD = 0.8`, scaled by 1000. -/
def searchThreshold : Nat := 800

/-- `StatsManager.searchStats` of `stats.ts` lines 147-181, with the cache
assumed loaded (`catalog`) and the two Fuse.js indexes abstracted as
functions producing the top result and its score (scaled by 1000). -/
def searchStats (catalog : List StatOption)
    (fuzzyAll fuzzyImp : List Char → Option (StatOption × Nat))
    (statText : List Char) : SearchResult :=
  let context := analyzeSearchContext statText
  let relevantStats :=
    if context.isImplicitOnly then catalog.filter (fun s => s.type == implicitType) else catalog
  let fuzzy := if context.isImplicitOnly then fuzzyImp else fuzzyAll
  match findExactMatch context.normalizedTerm relevantStats with
  | some i => ⟨some i, true, none⟩
  | none =>
    match fuzzy context.normalizedTerm with
    | none => ⟨none, false, none⟩
    | some (best, score) =>
      if score < searchThreshold then ⟨some best.id, false, some score⟩ else ⟨none, false, none⟩

/-! ## The map-based resolver (`StatsManager.findStatId` of `stat-utils.ts`) -/

/-- `FUSE_THRESHOLD = 0.6`, scaled by 1000. -/
def fuseThresholdSU : Nat := 600

/-- `StatsManager.findStatId` of `stat-utils.ts` lines 215-253, with the
cache assumed loaded: `mapAll`/`mapImp` are the precomputed
normalized-text lookup maps, `fuzzyAll`/`fuzzyImp` the Fuse instances,
and `hasImplicitIndex` whether `implicitFuseInstance` is non-null
(`getSearchConfiguration`, lines 255-271). -/
def findStatIdSU (mapAll mapImp : List Char → Option StatOption)
    (fuzzyAll fuzzyImp : List Char → Option (StatOption × Nat))
    (hasImplicitIndex : Bool) (statText : List Char) : Option (List Char) :=
  if statText.isEmpty then none
  else
    let cleanInput := normalizeStatTextSU statText
    if cleanInput.isEmpty then none
    else
      let searchingForImplicit := containsSeq bareImplChars (statText.map toLowerChar)
      let useImplicit := searchingForImplicit && hasImplicitIndex
      let nmap := if useImplicit then mapImp else mapAll
      let fz := if useImplicit then fuzzyImp else fuzzyAll
      match nmap cleanInput with
      | some s => some s.id
      | none =>
        match fz cleanInput with
        | some (best, score) => if score < fuseThresholdSU then some best.id else none
        | none => none

/-! ## Rate limiter (`src/unnamed/part_009`, `RateLimitService`) -/

structure RateLimitTier where
  hits : Nat
  max : Nat
  period : Nat
  restrictedTime : Nat
  lastUpdated : Nat
deriving DecidableEq

structure RateLimitCheck where
  allowed : Bool
  timeToWait : Option Nat
deriving DecidableEq

/-- `createDefaultTiers` of `part_009` lines 4-11 (also
`rate-limit.service.ts` lines 3-10, without the restriction field). -/
def createDefaultTiers (now : Nat) : List RateLimitTier :=
  [⟨0, 5, 10000, 0, now⟩, ⟨0, 15, 60000, 0, now⟩, ⟨0, 30, 300000, 0, now⟩]

/-- `Math.ceil(n / 1000)` for a non-negative integer number of milliseconds. -/
def ceilDiv1000 (n : Nat) : Nat := (n + 999) / 1000

/-- `calculateTimeLeft` of `part_009` lines 24-28 (`Math.max(0, ...)` is
the truncated Nat subtraction). -/
def calculateTimeLeft (now : Nat) (t : RateLimitTier) : Nat :=
  t.period - (now - t.lastUpdated)

/-- The lazy per-tier reset performed at the top of the scan loop of
`checkAndIncrementLimit` (`part_009` lines 90-102) and of `getStatus`:
reset the window if the period elapsed, clear an expired restriction. -/
def refreshTier (now : Nat) (t : RateLimitTier) : RateLimitTier :=
  let t1 := if now - t.lastUpdated ≥ t.period then { t with hits := 0, lastUpdated := now } else t
  if 0 < t1.restrictedTime ∧ t1.restrictedTime ≤ now then { t1 with restrictedTime := 0 } else t1

def refreshAll (now : Nat) (tiers : List RateLimitTier) : List RateLimitTier :=
  tiers.map (refreshTier now)

/-- The wait-time contribution of one (already refreshed) tier in the scan
loop of `checkAndIncrementLimit` (`part_009` lines 104-115): a restricted
tier contributes its remaining restriction (and skips the window check), a
window-exceeded tier contributes its remaining window. -/
def tierViolation (now : Nat) (t : RateLimitTier) : Option Nat :=
  if t.restrictedTime > now then some (ceilDiv1000 (t.restrictedTime - now))
  else if t.hits ≥ t.max then some (ceilDiv1000 (calculateTimeLeft now t))
  else none

/-- The `shortestWaitTime = Math.min(...)` accumulation of the scan loop
(`Infinity` is `none`). -/
def minWaitStep (now : Nat) (acc : Option Nat) (t : RateLimitTier) : Option Nat :=
  match tierViolation now t with
  | none => acc
  | some w =>
    match acc with
    | none => some w
    | some m => some (Nat.min m w)

/-- `checkAndIncrementLimit` of `part_009` lines 86-128: refresh every
tier, accumulate the shortest wait among violating tiers; if one exists
return not-allowed with that wait, otherwise increment every tier. -/
def checkAndIncrementLimit (now : Nat) (tiers : List RateLimitTier) :
    List RateLimitTier × RateLimitCheck :=
  let refreshed := refreshAll now tiers
  match refreshed.foldl (minWaitStep now) none with
  | some w => (refreshed, ⟨false, some w⟩)
  | none => (refreshed.map (fun t => { t with hits := t.hits + 1 }), ⟨true, none⟩)

/-- `setRestriction` of `part_009` lines 130-137. -/
def setRestriction (now durationSeconds : Nat) (tiers : List RateLimitTier) :
    List RateLimitTier :=
  let restrictedUntil := now + durationSeconds * 1000
  tiers.map (fun t => { t with restrictedTime := Nat.max t.restrictedTime restrictedUntil })

/-! ### Header reconciliation (`tryUpdateTiersFromHeaders`, `part_009` lines 209-340) -/

/-- `parseInt(value.trim(), 10)` with the NaN/finite check of
`parseIntSafely` (`part_009` lines 13-22): an optional sign followed by at
least one leading digit; trailing non-digits are ignored. -/
def parseIntJS (l : List Char) : Option Int :=
  match l with
  | '+' :: rest => (parseDigitRun rest).map Int.ofNat
  | '-' :: rest => (parseDigitRun rest).map (fun n => -(Int.ofNat n))
  | _ => (parseDigitRun l).map Int.ofNat
where
  parseDigitRun (l : List Char) : Option Nat :=
    let ds := l.takeWhile Char.isDigit
    if ds.isEmpty then none else some (ds.foldl (fun a c => a * 10 + (c.toNat - 48)) 0)

/-- One `hits:period:restricted` rule/state tuple pair parsed and validated
as in the loop body of `tryUpdateTiersFromHeaders` (`part_009` lines
243-303): both sides need at least three `:`-separated parts, all six
numbers must parse, and the value checks (`period > 0`, the rest `≥ 0`)
must pass; the resulting tier data already carries the
`Math.min(hits, max)` clamp and the absolute restriction deadline. -/
structure TierData where
  hits : Nat
  max : Nat
  period : Nat
  restrictedTime : Nat
deriving DecidableEq

def tupleData (now : Nat) (rule state : List Char) : Option TierData :=
  let ruleParts := (splitOnChar ':' rule).map trimEnds
  let stateParts := (splitOnChar ':' state).map trimEnds
  if ruleParts.length ≥ 3 ∧ stateParts.length ≥ 3 then
    match parseIntJS (ruleParts.getD 0 []), parseIntJS (ruleParts.getD 1 []),
        parseIntJS (ruleParts.getD 2 []), parseIntJS (stateParts.getD 0 []),
        parseIntJS (stateParts.getD 1 []), parseIntJS (stateParts.getD 2 []) with
    | some mx, some periodS, some restrS, some hits, some curPeriodS, some activeRestrS =>
      if 0 ≤ mx ∧ 0 < periodS ∧ 0 ≤ restrS ∧ 0 ≤ hits ∧ 0 ≤ curPeriodS ∧ 0 ≤ activeRestrS then
        some ⟨(min hits mx).toNat, mx.toNat, periodS.toNat * 1000,
          if activeRestrS > 0 then now + activeRestrS.toNat * 1000 else 0⟩
      else none
    | _, _, _, _, _, _ => none
  else none

def tierFromData (now : Nat) (d : TierData) : RateLimitTier :=
  ⟨d.hits, d.max, d.period, d.restrictedTime, now⟩

/-- `header.split(',').map(trim).filter(Boolean)`. -/
def splitClean (l : List Char) : List (List Char) :=
  ((splitOnChar ',' l).map trimEnds).filter (fun s => !s.isEmpty)

def maxTiers : Nat := 10

/-- One iteration of the index loop of `tryUpdateTiersFromHeaders`
(`part_009` lines 233-336); the Boolean component records the `break`
taken when the tier cap is reached. -/
def headersStep (now : Nat) (rules states : List (List Char))
    (acc : List RateLimitTier × Nat × Bool) (i : Nat) : List RateLimitTier × Nat × Bool :=
  match acc with
  | (tiers, count, stopped) =>
    if stopped then (tiers, count, stopped)
    else
      match rules[i]?, states[i]? with
      | some rule, some state =>
        match tupleData now rule state with
        | none => (tiers, count, false)
        | some d =>
          if i < tiers.length then (tiers.set i (tierFromData now d), count + 1, false)
          else if tiers.length < maxTiers then (tiers ++ [tierFromData now d], count + 1, false)
          else (tiers, count, true)
      | _, _ => (tiers, count, false)

/-- `tryUpdateTiersFromHeaders` of `part_009` lines 209-340, returning the
updated tier list and the number of tiers updated. -/
def tryUpdateTiersFromHeaders (now : Nat) (ruleHeader stateHeader : List Char)
    (tiers : List RateLimitTier) : List RateLimitTier × Nat :=
  let rules := splitClean ruleHeader
  let states := splitClean stateHeader
  let r := (List.range (Nat.max rules.length states.length)).foldl
    (headersStep now rules states) (tiers, 0, false)
  (r.1, r.2.1)

/-- `incrementLimits` of `rateLimit.ts` lines 90-97 (the split
check/increment variant): increments every tier unconditionally. -/
def incrementLimits (now : Nat) (tiers : List RateLimitTier) : List RateLimitTier :=
  tiers.map (fun t => { t with hits := t.hits + 1, lastUpdated := now })

/-- Rate-limiter states reachable from the default construction by the
operations of `part_009`: check-and-reserve, explicit restriction, header
reconciliation, and the lazy refresh performed by `getStatus`. -/
inductive Reachable : List RateLimitTier → Prop where
  | init (now : Nat) : Reachable (createDefaultTiers now)
  | check (now : Nat) (s : List RateLimitTier) :
      Reachable s → Reachable (checkAndIncrementLimit now s).1
  | restrict (now secs : Nat) (s : List RateLimitTier) :
      Reachable s → Reachable (setRestriction now secs s)
  | headers (now : Nat) (rh sh : List Char) (s : List RateLimitTier) :
      Reachable s → Reachable (tryUpdateTiersFromHeaders now rh sh s).1
  | status (now : Nat) (s : List RateLimitTier) :
      Reachable s → Reachable (refreshAll now s)

/-! ## Stat catalog cache single-flight (`fetchStats`) -/

inductive FetchOutcome where
  | cached
  | unavailableError
  | pending (id : Nat)
deriving DecidableEq

def cacheRetryInterval : Nat := 60000

/-- State of the `stats.ts` `StatsManager` relevant to `fetchStats`
(lines 224-245 with `canAttemptFetch`/`setupFetchPromise`, lines 64-77):
whether a snapshot is ready, the `lastFetchTime` stamp, the stored pending
promise (identified by a number), and a counter of network calls started. -/
structure TsFetchState where
  cacheReady : Bool
  lastFetchTime : Nat
  fetchPromise : Option Nat
  networkCalls : Nat
deriving DecidableEq

/-- The synchronous prefix of `fetchStats` of `stats.ts` lines 224-245: it
runs atomically on the event loop, so two concurrent calls are two
successive applications of this function. -/
def fetchStatsTs (now : Nat) (s : TsFetchState) : TsFetchState × FetchOutcome :=
  if s.cacheReady then (s, .cached)
  else if ¬ (now - s.lastFetchTime ≥ cacheRetryInterval) then (s, .unavailableError)
  else
    match s.fetchPromise with
    | some p => (s, .pending p)
    | none =>
      ({ s with
          lastFetchTime := now,
          fetchPromise := some s.networkCalls,
          networkCalls := s.networkCalls + 1 }, .pending s.networkCalls)

/-- State of the `stat-utils.ts` `StatsManager` relevant to `fetchStats`
(lines 59-84): the cache snapshot is represented by its timestamp. -/
structure SuFetchState where
  cacheTimestamp : Option Nat
  lastFetchAttempt : Nat
  fetchPromise : Option Nat
  networkCalls : Nat
deriving DecidableEq

def cacheTTL : Nat := 300000

def startFetchSU (now : Nat) (s : SuFetchState) : SuFetchState × FetchOutcome :=
  ({ s with
      lastFetchAttempt := now,
      fetchPromise := some s.networkCalls,
      networkCalls := s.networkCalls + 1 }, .pending s.networkCalls)

/-- The synchronous prefix of `fetchStats` of `stat-utils.ts` lines 59-84:
an in-flight promise is returned first; then a valid cache; then the
retry throttle applies only when no cache exists at all. -/
def fetchStatsSU (now : Nat) (s : SuFetchState) : SuFetchState × FetchOutcome :=
  match s.fetchPromise with
  | some p => (s, .pending p)
  | none =>
    match s.cacheTimestamp with
    | some ts => if now - ts < cacheTTL then (s, .cached) else startFetchSU now s
    | none =>
      if now - s.lastFetchAttempt < cacheRetryInterval then (s, .unavailableError)
      else startFetchSU now s

/-! ## Query builder (`handleSearch` of `ItemChecker.svelte` lines 109-221) -/

structure ParsedItem where
  itemClass : Option (List Char)
  itemLevel : Option Nat
  stats : List (List Char)
  rarity : Option (List Char)
  name : Option (List Char)
  baseType : Option (List Char)

/-- The result of `parseFloat` on a matched number, kept exact as
numerator over a power-of-ten denominator. -/
structure DecimalValue where
  num : Int
  den : Nat
deriving DecidableEq

/-- Parse `\d+\.?\d*` at the head of `l` (which must start with a digit),
with `parseFloat` semantics; `neg` records a leading `-` sign. -/
def parseDecimalAt (neg : Bool) (l : List Char) : DecimalValue :=
  let ds := l.takeWhile Char.isDigit
  let r1 := l.dropWhile Char.isDigit
  let intPart := ds.foldl (fun a c => a * 10 + (c.toNat - 48)) 0
  let fs :=
    match r1 with
    | '.' :: r2 => r2.takeWhile Char.isDigit
    | _ => []
  let fracPart := fs.foldl (fun a c => a * 10 + (c.toNat - 48)) 0
  let mag : Int := Int.ofNat (intPart * 10 ^ fs.length + fracPart)
  ⟨if neg then -mag else mag, 10 ^ fs.length⟩

/-- The scan of `statText.match(/([+-]?\d+\.?\d*)/g)` for its first match. -/
def firstNumberScan : List Char → Option DecimalValue
  | [] => none
  | c :: rest =>
    if c.isDigit then some (parseDecimalAt false (c :: rest))
    else if c == '+' || c == '-' then
      match rest with
      | d :: _ => if d.isDigit then some (parseDecimalAt (c == '-') rest) else firstNumberScan rest
      | [] => none
    else firstNumberScan rest

/-- `extractValue` of `stats.ts` lines 212-219: the first signed decimal
number in the text, `0` when none. -/
def extractValue (l : List Char) : DecimalValue :=
  match firstNumberScan l with
  | some v => v
  | none => ⟨0, 1⟩

structure StatFilterEntry where
  id : List Char
  minValue : DecimalValue
deriving DecidableEq

structure TradeQuery where
  name : Option (List Char)
  type : Option (List Char)
  statFilters : List StatFilterEntry
  category : Option (List Char)
  ilvlMin : Option Nat
deriving DecidableEq

inductive BuildResult where
  | unsupportedClass
  | noValidStats
  | ok (q : TradeQuery)
deriving DecidableEq

def uniqueRarity : List Char := "Unique".toList

/-- JavaScript truthiness of an optional string. -/
def optTruthy : Option (List Char) → Bool
  | some l => !l.isEmpty
  | none => false

/-- The stat-filter construction of the non-unique branch (`handleSearch`
lines 152-175): resolve each line, drop lines without an id (including the
falsy empty-string id), and attach the extracted minimum value. -/
def resolveFilters (resolver : List Char → Option (List Char))
    (stats : List (List Char)) : List StatFilterEntry :=
  stats.filterMap (fun st =>
    match resolver st with
    | none => none
    | some i => if i.isEmpty then none else some ⟨i, extractValue st⟩)

def categoryOf (classMap : List Char → Option (List Char)) (item : ParsedItem) :
    Option (List Char) :=
  match item.itemClass with
  | some c => if c.isEmpty then none else classMap c
  | none => none

def ilvlOf (includeItemLevel : Bool) (item : ParsedItem) : Option Nat :=
  match item.itemLevel with
  | some lvl => if lvl ≠ 0 ∧ includeItemLevel then some lvl else none
  | none => none

def buildQueryCore (classMap : List Char → Option (List Char))
    (resolver : List Char → Option (List Char))
    (includeItemLevel : Bool) (item : ParsedItem) : BuildResult :=
  if item.rarity = some uniqueRarity ∧ optTruthy item.name ∧ optTruthy item.baseType then
    .ok ⟨item.name, item.baseType, [], categoryOf classMap item, ilvlOf includeItemLevel item⟩
  else
    let filters := resolveFilters resolver item.stats
    if filters.isEmpty then .noValidStats
    else .ok ⟨none, none, filters, categoryOf classMap item, ilvlOf includeItemLevel item⟩

/-- The query construction of `handleSearch` (`ItemChecker.svelte` lines
109-221): reject an unmapped (truthy) item class, build a name+type query
with no stat filters for a unique item with name and base type, otherwise
resolve the stat lines into filters and fail only when none resolve.
`classMap` is `ITEM_CLASS_MAP`, `resolver` is `findStatId`. -/
def buildQuery (classMap : List Char → Option (List Char))
    (resolver : List Char → Option (List Char))
    (includeItemLevel : Bool) (item : ParsedItem) : BuildResult :=
  let classUnsupported :=
    match item.itemClass with
    | some c => !c.isEmpty && (classMap c).isNone
    | none => false
  if classUnsupported then .unsupportedClass
  else buildQueryCore classMap resolver includeItemLevel item

/-! # Theorems -/

/-! ## Character-level facts -/

theorem toNat_ofNat_small (n : Nat) (h : n < 55296) : (Char.ofNat n).toNat = n := by
  rw [Char.ofNat, dif_pos (Or.inl h)]
  simp [Char.ofNatAux, Char.toNat, UInt32.ofNat', UInt32.toNat, BitVec.toNat_ofNatLt]

theorem toLowerChar_idem (c : Char) : toLowerChar (toLowerChar c) = toLowerChar c := by
  unfold toLowerChar
  by_cases h : 65 ≤ c.toNat ∧ c.toNat ≤ 90
  · rw [if_pos h]
    have hv : (Char.ofNat (c.toNat + 32)).toNat = c.toNat + 32 :=
      toNat_ofNat_small _ (by omega)
    rw [if_neg (by omega)]
  · rw [if_neg h, if_neg h]

theorem containsSeq_iff (n h : List Char) : containsSeq n h = true ↔ n <:+: h := by
  induction h with
  | nil => simp [containsSeq, List.isEmpty_iff, List.infix_nil]
  | cons c rest ih =>
    simp [containsSeq, ih, List.infix_cons_iff, List.isPrefixOf_iff_prefix]

/-! ## Stage lemmas for the normalizer: acting as the identity -/

theorem map_toLowerChar_eq_self (l : List Char) (h : ∀ c ∈ l, toLowerChar c = c) :
    l.map toLowerChar = l := by
  induction l with
  | nil => rfl
  | cons c rest ih =>
    simp only [List.map_cons, h c (by simp), List.cons.injEq, true_and]
    exact ih (fun d hd => h d (by simp [hd]))

theorem noPlusNum_eq_self : ∀ l : List Char, (∀ c ∈ l, c.isDigit = false) →
    noPlusNum l = l := by
  intro l
  induction l using noPlusNum.induct <;> intro h <;> simp_all [noPlusNum]

theorem noBrackets_eq_self (l : List Char) (h : ∀ c ∈ l, c ≠ '[' ∧ c ≠ ']') :
    noBrackets l = l := by
  refine List.filter_eq_self.mpr (fun c hc => ?_)
  have := h c hc
  simp [this.1, this.2]

theorem noPipesGo_eq_self : ∀ l : List Char, (∀ c ∈ l, c ≠ '|') →
    noPipesGo false l = l := by
  intro l
  induction l with
  | nil => intro; rfl
  | cons c rest ih =>
    intro h
    have hc : ¬(c == '|') = true := by simpa using h c (by simp)
    simp only [noPipesGo, if_neg hc]
    exact congrArg _ (ih (fun d hd => h d (by simp [hd])))

theorem numHashGo_eq_self : ∀ l : List Char, (∀ c ∈ l, c.isDigit = false) →
    numHashGo 0 l = l := by
  intro l
  induction l with
  | nil => intro; rfl
  | cons c rest ih =>
    intro h
    have hc : ¬c.isDigit = true := by simp [h c (by simp)]
    have hrest : ∀ d ∈ rest, d.isDigit = false := fun d hd => h d (by simp [hd])
    by_cases hs : (c == '+' || c == '-') = true
    · cases rest with
      | nil => rw [numHashGo.eq_def]; simp [hc, hs]
      | cons d rest2 =>
        have hd : ¬d.isDigit = true := by simp [h d (by simp)]
        rw [numHashGo.eq_def]
        simp [hc, hs, hd, ih hrest]
    · rw [numHashGo.eq_def]
      simp [hc, hs, ih hrest]

theorem oneSpaceGo_eq_self : ∀ n : Nat, ∀ l : List Char, l.length ≤ n →
    (∀ c ∈ l, isWs c = true → c = ' ') → NoWsPair l → oneSpaceGo false l = l := by
  intro n
  induction n with
  | zero =>
    intro l hl _ _
    rw [List.length_eq_zero.mp (Nat.le_zero.mp hl)]
    rfl
  | succ n ih =>
    intro l hl hs hc
    cases l with
    | nil => rfl
    | cons c rest =>
      by_cases hw : isWs c = true
      · have hsp : c = ' ' := hs c (by simp) hw
        subst hsp
        rw [oneSpaceGo.eq_def]
        simp only [if_pos hw]
        cases rest with
        | nil => rfl
        | cons d rest2 =>
          have hd : ¬isWs d = true := by
            have := (List.chain'_cons'.mp hc).1 d (by simp)
            intro hcon
            exact this ⟨hw, hcon⟩
          rw [oneSpaceGo.eq_def]
          simp only [if_neg hd]
          have : oneSpaceGo false rest2 = rest2 := by
            refine ih rest2 ?_ (fun e he hwe => hs e (by simp [he]) hwe) ?_
            · simp at hl; omega
            · exact (List.chain'_cons'.mp ((List.chain'_cons'.mp hc).2)).2
          rw [this]
      · rw [oneSpaceGo.eq_def]
        simp only [if_neg hw]
        have : oneSpaceGo false rest = rest := by
          refine ih rest ?_ (fun e he hwe => hs e (by simp [he]) hwe) (List.Chain'.tail hc)
          simp at hl; omega
        rw [this]

theorem dropLit_eq_self (p l : List Char) (h : p.isPrefixOf l = false) : dropLit p l = l := by
  simp [dropLit, h]

theorem noImplicitEnd_eq_self (l : List Char) (htr : l.rdropWhile isWs = l)
    (h : (l.rtake implChars.length).map toLowerChar ≠ implChars) : noImplicitEnd l = l := by
  rw [noImplicitEnd]
  simp only [htr]
  rw [if_neg h]

theorem trimEnds_eq_self (l : List Char) (h1 : l.dropWhile isWs = l)
    (h2 : l.rdropWhile isWs = l) : trimEnds l = l := by
  rw [trimEnds, h1, h2]

/-! ## Stage lemmas: characters and shape of the output -/

theorem infix_of_pre {l₁ l₂ : List Char} (h : l₁ <+: l₂) : l₁ <:+: l₂ := by
  exact List.IsPrefix.isInfix h

theorem infix_of_suf {l₁ l₂ : List Char} (h : l₁ <:+ l₂) : l₁ <:+: l₂ := by
  exact List.IsSuffix.isInfix h

theorem noWsPair_mono {l₁ l₂ : List Char} (h : l₁ <:+: l₂) (hc : NoWsPair l₂) :
    NoWsPair l₁ := by
  exact List.Chain'.infix hc h

theorem toLowerChar_mem_map (c : Char) (l : List Char) (h : c ∈ l.map toLowerChar) :
    toLowerChar c = c := by
  obtain ⟨d, _, rfl⟩ := List.mem_map.mp h
  exact toLowerChar_idem d

theorem mem_noPlusNum : ∀ l : List Char, ∀ c' ∈ noPlusNum l, c' ∈ l := by
  intro l
  induction l using noPlusNum.induct with
  | case1 => intro c' h; simp [noPlusNum] at h
  | case2 c rest hd ih =>
    intro c' h
    rw [noPlusNum.eq_def] at h
    simp only [if_pos hd] at h
    rcases List.mem_cons.mp h with rfl | h'
    · simp
    · simpa using Or.inr (Or.inr (ih c' h'))
  | case3 c rest hd ih =>
    intro c' h
    rw [noPlusNum.eq_def] at h
    simp only [if_neg hd] at h
    rcases List.mem_cons.mp h with rfl | h'
    · simp
    · simpa using Or.inr (ih c' h')
  | case4 c rest hne ih =>
    intro c' h
    have hunf : noPlusNum (c :: rest) = c :: noPlusNum rest := by
      rw [noPlusNum.eq_def]
      cases rest with
      | nil => cases hc : c == '+' <;> simp [hc]
      | cons d rest2 =>
        by_cases hc : c = '+'
        · exact (hne d rest2 hc rfl).elim
        · simp [hc]
    rw [hunf] at h
    rcases List.mem_cons.mp h with rfl | h'
    · simp
    · simpa using Or.inr (ih c' h')

theorem mem_noPipesGo : ∀ (b : Bool) (l : List Char), ∀ c' ∈ noPipesGo b l,
    c' ∈ l ∧ c' ≠ '|' := by
  intro b l
  induction b, l using noPipesGo.induct with
  | case1 b => intro c' h; simp [noPipesGo] at h
  | case2 c rest hw ih =>
    intro c' h
    rw [noPipesGo.eq_def] at h
    simp only [if_pos hw] at h
    rcases List.mem_cons.mp h with rfl | h'
    · refine ⟨by simp, ?_⟩
      intro hcon
      subst hcon
      simp [isWs] at hw
    · have := ih c' h'
      exact ⟨by simp [this.1], this.2⟩
  | case3 c rest hw ih =>
    intro c' h
    rw [noPipesGo.eq_def] at h
    simp only [if_neg hw] at h
    have := ih c' h
    exact ⟨by simp [this.1], this.2⟩
  | case4 c rest hp ih =>
    intro c' h
    rw [noPipesGo.eq_def] at h
    simp only [if_pos hp] at h
    have := ih c' h
    exact ⟨by simp [this.1], this.2⟩
  | case5 c rest hp ih =>
    intro c' h
    rw [noPipesGo.eq_def] at h
    simp only [if_neg hp] at h
    rcases List.mem_cons.mp h with rfl | h'
    · exact ⟨by simp, by simpa using hp⟩
    · have := ih c' h'
      exact ⟨by simp [this.1], this.2⟩

theorem mem_numHashGo : ∀ (m : Nat) (l : List Char), ∀ c' ∈ numHashGo m l,
    (c' = '#' ∨ c' ∈ l) ∧ c'.isDigit = false := by
  intro m l
  induction m, l using numHashGo.induct <;> intro c' h <;>
    rw [numHashGo.eq_def] at h <;> simp_all
  all_goals
    rename_i ih
    first
    | (rcases h with rfl | h
       · simp_all
       · rcases ih c' h with ⟨h1 | h1, h2⟩ <;> simp_all)
    | (rcases ih c' h with ⟨h1 | h1, h2⟩ <;> simp_all)

theorem mem_oneSpaceGo : ∀ (b : Bool) (l : List Char), ∀ c' ∈ oneSpaceGo b l,
    (c' = ' ' ∨ c' ∈ l) ∧ (isWs c' = true → c' = ' ') := by
  intro b l
  induction b, l using oneSpaceGo.induct with
  | case1 b => intro c' h; simp [oneSpaceGo] at h
  | case2 c rest hw ih =>
    intro c' h
    rw [oneSpaceGo.eq_def] at h
    simp only [if_pos hw] at h
    rcases ih c' h with ⟨h1 | h1, h2⟩ <;> exact ⟨by simp [h1], h2⟩
  | case3 c rest hw ih =>
    intro c' h
    rw [oneSpaceGo.eq_def] at h
    simp only [if_neg hw] at h
    rcases List.mem_cons.mp h with rfl | h'
    · exact ⟨by simp, fun hcon => absurd hcon hw⟩
    · rcases ih c' h' with ⟨h1 | h1, h2⟩ <;> exact ⟨by simp [h1], h2⟩
  | case4 c rest hw ih =>
    intro c' h
    rw [oneSpaceGo.eq_def] at h
    simp only [if_pos hw] at h
    rcases List.mem_cons.mp h with rfl | h'
    · exact ⟨Or.inl rfl, fun _ => rfl⟩
    · rcases ih c' h' with ⟨h1 | h1, h2⟩ <;> exact ⟨by simp [h1], h2⟩
  | case5 c rest hw ih =>
    intro c' h
    rw [oneSpaceGo.eq_def] at h
    simp only [if_neg hw] at h
    rcases List.mem_cons.mp h with rfl | h'
    · exact ⟨by simp, fun hcon => absurd hcon hw⟩
    · rcases ih c' h' with ⟨h1 | h1, h2⟩ <;> exact ⟨by simp [h1], h2⟩

theorem noWsPair_oneSpaceGo : ∀ (b : Bool) (l : List Char),
    NoWsPair (oneSpaceGo b l) ∧
      (∀ c, (oneSpaceGo true l).head? = some c → isWs c = false) := by
  intro b l
  induction b, l using oneSpaceGo.induct with
  | case1 b => constructor <;> simp [oneSpaceGo, NoWsPair]
  | case2 c rest hw ih =>
    refine ⟨?_, ?_⟩
    · rw [oneSpaceGo.eq_def]
      simp only [if_pos hw]
      exact ih.1
    · intro d hd
      rw [oneSpaceGo.eq_def] at hd
      simp only [if_pos hw] at hd
      exact ih.2 d hd
  | case3 c rest hw ih =>
    have hchain : NoWsPair (c :: oneSpaceGo false rest) := by
      refine List.chain'_cons'.mpr ⟨?_, ih.1⟩
      intro y _ hcon
      exact absurd hcon.1 hw
    refine ⟨?_, ?_⟩
    · rw [oneSpaceGo.eq_def]
      simp only [if_neg hw]
      exact hchain
    · intro d hd
      rw [oneSpaceGo.eq_def] at hd
      simp only [if_neg hw, List.head?_cons] at hd
      cases Option.some_inj.mp hd
      simpa using hw
  | case4 c rest hw ih =>
    refine ⟨?_, ?_⟩
    · rw [oneSpaceGo.eq_def]
      simp only [if_pos hw]
      refine List.chain'_cons'.mpr ⟨?_, ih.1⟩
      intro y hy hcon
      have := ih.2 y hy
      rw [this] at hcon
      exact Bool.false_ne_true hcon.2
    · intro d hd
      rw [oneSpaceGo.eq_def] at hd
      simp only [if_pos hw] at hd
      exact ih.2 d hd
  | case5 c rest hw ih =>
    refine ⟨?_, ?_⟩
    · rw [oneSpaceGo.eq_def]
      simp only [if_neg hw]
      refine List.chain'_cons'.mpr ⟨?_, ih.1⟩
      intro y _ hcon
      exact absurd hcon.1 hw
    · intro d hd
      rw [oneSpaceGo.eq_def] at hd
      simp only [if_neg hw, List.head?_cons] at hd
      cases Option.some_inj.mp hd
      simpa using hw

/-! ## Infix and trimming lemmas -/

theorem dropLit_suffix (p l : List Char) : dropLit p l <:+ l := by
  rw [dropLit]
  split
  · exact List.drop_suffix _ _
  · exact List.suffix_refl l

theorem pre_noImplicitEnd (l : List Char) : noImplicitEnd l <+: l := by
  rw [noImplicitEnd]
  split
  · calc ((l.rdropWhile isWs).rdrop implChars.length).rdropWhile isWs
        <+: (l.rdropWhile isWs).rdrop implChars.length := List.rdropWhile_prefix _ _
      _ <+: l.rdropWhile isWs := List.take_prefix _ _
      _ <+: l := List.rdropWhile_prefix _ _
  · exact List.prefix_refl l

theorem pre_rdropWhile_dropWhile (l : List Char) :
    trimEnds l <+: l.dropWhile isWs := List.rdropWhile_prefix _ _

theorem infix_trimEnds (l : List Char) : trimEnds l <:+: l :=
  List.IsInfix.trans (infix_of_pre (pre_rdropWhile_dropWhile l))
    (infix_of_suf (List.dropWhile_suffix _))

theorem rdropWhile_trimEnds (l : List Char) :
    (trimEnds l).rdropWhile isWs = trimEnds l := by
  rw [trimEnds]
  exact List.rdropWhile_idempotent _ _

theorem dropWhile_trimEnds (l : List Char) :
    (trimEnds l).dropWhile isWs = trimEnds l := by
  refine List.dropWhile_eq_self_iff.mpr (fun hl => ?_)
  have hpre : trimEnds l <+: l.dropWhile isWs := pre_rdropWhile_dropWhile l
  have hlen : 0 < (l.dropWhile isWs).length :=
    Nat.lt_of_lt_of_le hl (List.IsPrefix.length_le hpre)
  have hhead : ¬ isWs ((l.dropWhile isWs).get ⟨0, hlen⟩) = true :=
    List.dropWhile_eq_self_iff.mp (List.dropWhile_idempotent _ _) hlen
  have : (trimEnds l).get ⟨0, hl⟩ = (l.dropWhile isWs).get ⟨0, hlen⟩ := by
    simpa [List.get_eq_getElem] using List.IsPrefix.getElem hpre hl
  rw [this]
  exact hhead

/-! ## Shape of normalizer output -/

theorem normalize_chars : ∀ t : List Char, ∀ c ∈ normalizeStatText t,
    toLowerChar c = c ∧ c.isDigit = false ∧ (c ≠ '[' ∧ c ≠ ']') ∧ c ≠ '|' ∧
      (isWs c = true → c = ' ') := by
  intro t c hc
  rw [normalizeStatText] at hc
  split at hc
  · simp at hc
  · have h1 := List.IsInfix.subset (infix_trimEnds _) hc
    have h2 := List.IsPrefix.subset (pre_noImplicitEnd _) h1
    have h3 := List.IsSuffix.subset (dropLit_suffix youChars _) h2
    have h4 := List.IsSuffix.subset (dropLit_suffix gainChars _) h3
    have h5 := List.IsSuffix.subset (dropLit_suffix addsChars _) h4
    simp only [oneSpace] at h5
    rcases mem_oneSpaceGo false _ c h5 with ⟨hsp | hmem, hws⟩
    · subst hsp
      exact ⟨by decide, by decide, ⟨by decide, by decide⟩, by decide, fun _ => rfl⟩
    · simp only [numHash] at hmem
      rcases mem_numHashGo 0 _ c hmem with ⟨hh | hmem2, hdig⟩
      · subst hh
        exact ⟨by decide, by decide, ⟨by decide, by decide⟩, by decide, by decide⟩
      · simp only [noPipes] at hmem2
        rcases mem_noPipesGo false _ c hmem2 with ⟨hmem3, hpipe⟩
        have hbr := List.mem_filter.mp hmem3
        have hmem5 := mem_noPlusNum _ c hbr.1
        have hlower := toLowerChar_mem_map c _ hmem5
        refine ⟨hlower, hdig, ?_, hpipe, hws⟩
        have hbr2 := hbr.2
        constructor <;> intro hcon <;> subst hcon <;> simp at hbr2

theorem infix_normalize_core (x : List Char) :
    trimEnds (noImplicitEnd (dropLit youChars (dropLit gainChars (dropLit addsChars x)))) <:+:
      x := by
  have h1 := infix_trimEnds
    (noImplicitEnd (dropLit youChars (dropLit gainChars (dropLit addsChars x))))
  have h2 := pre_noImplicitEnd (dropLit youChars (dropLit gainChars (dropLit addsChars x)))
  have h3 := dropLit_suffix youChars (dropLit gainChars (dropLit addsChars x))
  have h4 := dropLit_suffix gainChars (dropLit addsChars x)
  have h5 := dropLit_suffix addsChars x
  exact h1.trans ((infix_of_pre h2).trans ((infix_of_suf h3).trans
    ((infix_of_suf h4).trans (infix_of_suf h5))))

theorem oneSpace_eq (l : List Char) : oneSpace l = oneSpaceGo false l := rfl

theorem noPipes_eq (l : List Char) : noPipes l = noPipesGo false l := rfl

theorem numHash_eq (l : List Char) : numHash l = numHashGo 0 l := rfl

attribute [irreducible] normalizeStatText trimEnds noImplicitEnd dropLit oneSpace oneSpaceGo
attribute [irreducible] numHash numHashGo noPipes noPipesGo noBrackets noPlusNum

theorem noWsPair_normalize (t : List Char) : NoWsPair (normalizeStatText t) := by
  by_cases ht : t.isEmpty = true
  · rw [normalizeStatText.eq_def, if_pos ht]
    exact List.chain'_nil
  · rw [normalizeStatText.eq_def, if_neg ht, oneSpace_eq]
    have hg := (noWsPair_oneSpaceGo false
      (numHash (noPipes (noBrackets (noPlusNum (t.map toLowerChar)))))).1
    have hi := infix_normalize_core
      (oneSpaceGo false (numHash (noPipes (noBrackets (noPlusNum (t.map toLowerChar))))))
    exact noWsPair_mono hi hg

theorem trimmed_normalize (t : List Char) :
    (normalizeStatText t).dropWhile isWs = normalizeStatText t ∧
      (normalizeStatText t).rdropWhile isWs = normalizeStatText t := by
  by_cases ht : t.isEmpty = true
  · rw [normalizeStatText.eq_def, if_pos ht]
    constructor <;> simp
  · rw [normalizeStatText.eq_def, if_neg ht]
    exact ⟨dropWhile_trimEnds _, rdropWhile_trimEnds _⟩

/-- Claim C3 (amended): the normalizer is idempotent on every input whose
normal form does not itself begin with one of the filler prefixes
`adds `/`gain `/`you ` and does not end with the `(implicit)` marker; on
other inputs a second application strips further (see the counterexample). -/
theorem normalizeStatText_idempotent_of (t : List Char)
    (h1 : addsChars.isPrefixOf (normalizeStatText t) = false)
    (h2 : gainChars.isPrefixOf (normalizeStatText t) = false)
    (h3 : youChars.isPrefixOf (normalizeStatText t) = false)
    (h4 : ((normalizeStatText t).rtake implChars.length).map toLowerChar ≠ implChars) :
    normalizeStatText (normalizeStatText t) = normalizeStatText t := by
  have hchars := normalize_chars t
  have hchain := noWsPair_normalize t
  have htrim := trimmed_normalize t
  by_cases hemp : (normalizeStatText t).isEmpty = true
  · rw [List.isEmpty_iff.mp hemp]
    rw [normalizeStatText.eq_def]
    simp
  · rw [normalizeStatText.eq_def, if_neg hemp]
    rw [map_toLowerChar_eq_self _ (fun c hc => (hchars c hc).1)]
    rw [noPlusNum_eq_self _ (fun c hc => (hchars c hc).2.1)]
    rw [noBrackets_eq_self _ (fun c hc => (hchars c hc).2.2.1)]
    rw [noPipes_eq, noPipesGo_eq_self _ (fun c hc => (hchars c hc).2.2.2.1)]
    rw [numHash_eq, numHashGo_eq_self _ (fun c hc => (hchars c hc).2.1)]
    rw [oneSpace_eq, oneSpaceGo_eq_self (normalizeStatText t).length _ le_rfl
      (fun c hc hw => (hchars c hc).2.2.2.2 hw) hchain]
    rw [dropLit_eq_self addsChars _ h1]
    rw [dropLit_eq_self gainChars _ h2]
    rw [dropLit_eq_self youChars _ h3]
    rw [noImplicitEnd_eq_self _ htrim.2 h4]
    exact trimEnds_eq_self _ htrim.1 htrim.2

set_option allowUnsafeReducibility true in
attribute [semireducible] normalizeStatText trimEnds noImplicitEnd dropLit oneSpace oneSpaceGo

set_option allowUnsafeReducibility true in
attribute [semireducible] numHash numHashGo noPipes noPipesGo noBrackets noPlusNum

/-- Claim C3: false as stated.  The normalizer is not idempotent: on
`"you you x"` one application strips a single leading `you ` filler,
yielding `"you x"`, and a second application strips again, yielding `"x"`. -/
theorem normalizeStatText_not_idempotent :
    normalizeStatText "you you x".toList = "you x".toList ∧
      normalizeStatText (normalizeStatText "you you x".toList) = "x".toList ∧
      normalizeStatText (normalizeStatText "you you x".toList) ≠
        normalizeStatText "you you x".toList := by
  refine ⟨by decide, ?_, ?_⟩ <;> decide

/-- Witness for the amended C3 theorem at a concrete input. -/
theorem normalizeStatText_idempotent_witness :
    normalizeStatText (normalizeStatText "+10 to Strength".toList) =
      normalizeStatText "+10 to Strength".toList :=
  normalizeStatText_idempotent_of "+10 to Strength".toList
    (by decide) (by decide) (by decide) (by decide)

/-! ## Stat resolver: exact-match precedence and implicit scoping -/

/-- Claim C1: false as stated for the map-based `findStatId` variant.  A
catalog entry with id `"x"` and text `"[]"` normalizes to the empty
string, as does the input `"[ ]"`: an entry whose normalized text equals
the normalized input exists in the candidate pool, yet the resolver
answers null because `if (!cleanInput) return null` fires before the
exact-match lookup.  The lookup maps and fuzzy indexes passed here are
exactly what the code builds over that one-entry catalog: the map
construction skips entries whose normalized text is empty
(`if (normalized)`), so every lookup misses, and the implicit index is
absent — no unreachable index behaviour is assumed. -/
theorem searchStats_exact_match_counterexample :
    normalizeStatTextSU
        (⟨"x".toList, "[]".toList, "Explicit".toList⟩ : StatOption).text =
      normalizeStatTextSU "[ ]".toList ∧
    normalizeStatTextSU "[ ]".toList = [] ∧
    (⟨"x".toList, "[]".toList, "Explicit".toList⟩ : StatOption).id ≠ [] ∧
    findStatIdSU (fun _ => none) (fun _ => none) (fun _ => none) (fun _ => none)
      false "[ ]".toList = none := by
  refine ⟨?_, ?_, ?_, ?_⟩ <;> decide

/-- Claim C1 (amended): exact-match precedence holds for entries with a
non-empty id: whenever the first entry of the selected candidate pool
whose normalized text equals the normalized search term has a non-empty
id, `searchStats` returns exactly that id as an exact match, for every
pair of fuzzy indexes and hence regardless of any fuzzy score. -/
theorem searchStats_exact_match_precedence (catalog : List StatOption)
    (fuzzyAll fuzzyImp : List Char → Option (StatOption × Nat)) (statText : List Char)
    (s₀ : StatOption)
    (hfind : (if (analyzeSearchContext statText).isImplicitOnly = true then
        catalog.filter (fun s => s.type == implicitType) else catalog).find?
        (fun s => normalizeStatText s.text ==
          (analyzeSearchContext statText).normalizedTerm) = some s₀)
    (hid : s₀.id ≠ []) :
    normalizeStatText s₀.text = (analyzeSearchContext statText).normalizedTerm ∧
      searchStats catalog fuzzyAll fuzzyImp statText = ⟨some s₀.id, true, none⟩ := by
  constructor
  · simpa using List.find?_some hfind
  · rw [searchStats, findExactMatch]
    rw [hfind]
    simp [List.isEmpty_iff, hid]

/-- Witness for the amended C1 theorem at a concrete catalog and input. -/
theorem searchStats_exact_match_witness :
    normalizeStatText (⟨"a".toList, "foo".toList, "Explicit".toList⟩ : StatOption).text =
        (analyzeSearchContext "foo".toList).normalizedTerm ∧
      searchStats [⟨"a".toList, "foo".toList, "Explicit".toList⟩]
        (fun _ => none) (fun _ => none) "foo".toList =
        ⟨some "a".toList, true, none⟩ :=
  searchStats_exact_match_precedence [⟨"a".toList, "foo".toList, "Explicit".toList⟩]
    (fun _ => none) (fun _ => none) "foo".toList
    ⟨"a".toList, "foo".toList, "Explicit".toList⟩ (by decide) (by decide)

/-- Claim C7: on an input containing the `(implicit)` marker, with a
non-empty implicit pool and an implicit fuzzy index that is sound for its
corpus (it only returns members of the implicit pool, as a Fuse index
built over `implicitStats` does), `searchStats` returns either no id or
the id of a stat from the implicit pool — never an id from outside it,
on either the exact-match or the fuzzy path. -/
theorem searchStats_implicit_scoped (catalog : List StatOption)
    (fuzzyAll fuzzyImp : List Char → Option (StatOption × Nat)) (statText : List Char)
    (hmark : implChars <:+: statText)
    (_hpool : catalog.filter (fun s => s.type == implicitType) ≠ [])
    (hfz : ∀ q s sc, fuzzyImp q = some (s, sc) →
      s ∈ catalog.filter (fun s => s.type == implicitType)) :
    (searchStats catalog fuzzyAll fuzzyImp statText).id = none ∨
      ∃ s ∈ catalog.filter (fun s => s.type == implicitType),
        s.type = implicitType ∧
          (searchStats catalog fuzzyAll fuzzyImp statText).id = some s.id := by
  have hmap : implChars <:+: statText.map toLowerChar := by
    have h1 : implChars.map toLowerChar <:+: statText.map toLowerChar :=
      List.IsInfix.map toLowerChar hmark
    have h2 : implChars.map toLowerChar = implChars := by decide
    rwa [h2] at h1
  have himpl : (analyzeSearchContext statText).isImplicitOnly = true := by
    rw [analyzeSearchContext]
    exact (containsSeq_iff _ _).mpr hmap
  have htype : ∀ s ∈ catalog.filter (fun s => s.type == implicitType),
      s.type = implicitType := by
    intro s hs
    simpa using (List.mem_filter.mp hs).2
  rw [searchStats, himpl]
  simp only [if_pos]
  cases hfe : findExactMatch (analyzeSearchContext statText).normalizedTerm
      (catalog.filter (fun s => s.type == implicitType)) with
  | some i =>
    right
    rw [findExactMatch] at hfe
    cases hfind : (catalog.filter (fun s => s.type == implicitType)).find?
        (fun s => normalizeStatText s.text ==
          (analyzeSearchContext statText).normalizedTerm) with
    | some s =>
      rw [hfind] at hfe
      have hfe2 : (if s.id.isEmpty = true then none else some s.id) = some i := hfe
      refine ⟨s, List.mem_of_find?_eq_some hfind,
        htype s (List.mem_of_find?_eq_some hfind), ?_⟩
      show some i = some s.id
      by_cases hemp : s.id.isEmpty = true
      · rw [if_pos hemp] at hfe2
        exact absurd hfe2 (by simp)
      · rw [if_neg hemp] at hfe2
        rw [Option.some_inj.mp hfe2]
    | none =>
      rw [hfind] at hfe
      have hfe2 : (none : Option (List Char)) = some i := hfe
      exact absurd hfe2 (by simp)
  | none =>
    cases hfu : fuzzyImp (analyzeSearchContext statText).normalizedTerm with
    | none => left; rfl
    | some pair =>
      obtain ⟨best, score⟩ := pair
      by_cases hsc : score < searchThreshold
      · right
        refine ⟨best, hfz _ best score hfu, htype best (hfz _ best score hfu), ?_⟩
        show (if score < searchThreshold then
            (⟨some best.id, false, some score⟩ : SearchResult)
          else ⟨none, false, none⟩).id = some best.id
        rw [if_pos hsc]
      · left
        show (if score < searchThreshold then
            (⟨some best.id, false, some score⟩ : SearchResult)
          else ⟨none, false, none⟩).id = none
        rw [if_neg hsc]

/-- Witness for C7 at a concrete catalog, input, and fuzzy indexes. -/
theorem searchStats_implicit_scoped_witness :
    (searchStats [⟨"i1".toList, "life".toList, "Implicit".toList⟩]
        (fun _ => none) (fun _ => none) "life (implicit)".toList).id = none ∨
      ∃ s ∈ ([⟨"i1".toList, "life".toList, "Implicit".toList⟩] : List StatOption).filter
          (fun s => s.type == implicitType),
        s.type = implicitType ∧
          (searchStats [⟨"i1".toList, "life".toList, "Implicit".toList⟩]
            (fun _ => none) (fun _ => none) "life (implicit)".toList).id = some s.id :=
  searchStats_implicit_scoped [⟨"i1".toList, "life".toList, "Implicit".toList⟩]
    (fun _ => none) (fun _ => none) "life (implicit)".toList
    ((containsSeq_iff implChars "life (implicit)".toList).mp (by decide))
    (by decide) (fun q s sc h => absurd h (by simp))

/-! ## The map-based resolver: empty normalization short-circuit (C10) -/

/-- Claim C10: false as stated for its example class.  Text made up only
of digits (or signs) does not normalize to the empty string: digits
collapse to the `#` placeholder, so `findStatId` does consult the lookup
map on such input and can return an id. -/
theorem findStatIdSU_digits_counterexample :
    normalizeStatTextSU "1".toList = "#".toList ∧
      "#".toList ≠ ([] : List Char) ∧
      findStatIdSU
        (fun q => if q = "#".toList then
          some ⟨"id1".toList, "1".toList, "Explicit".toList⟩ else none)
        (fun _ => none) (fun _ => none) (fun _ => none) false "1".toList =
        some "id1".toList := by
  refine ⟨by decide, by decide, by decide⟩

/-- Claim C10 (amended): for every input whose normalization yields the
empty string (for example text made up only of brackets, pipe sections,
and whitespace), `findStatId` returns null without consulting the
exact-match lookup or the fuzzy index: the result is `none` for every
lookup map and fuzzy index whatsoever. -/
theorem findStatIdSU_empty_normalization
    (mapAll mapImp : List Char → Option StatOption)
    (fuzzyAll fuzzyImp : List Char → Option (StatOption × Nat))
    (hasIdx : Bool) (statText : List Char)
    (h : normalizeStatTextSU statText = []) :
    findStatIdSU mapAll mapImp fuzzyAll fuzzyImp hasIdx statText = none := by
  rw [findStatIdSU]
  by_cases he : statText.isEmpty = true
  · rw [if_pos he]
  · rw [if_neg he]
    simp [h]

/-- Witness for the amended C10 theorem: bracket-and-whitespace input with
a lookup map and fuzzy index that would otherwise match everything. -/
theorem findStatIdSU_empty_normalization_witness :
    findStatIdSU
      (fun _ => some ⟨"id1".toList, "x".toList, "Explicit".toList⟩)
      (fun _ => some ⟨"id1".toList, "x".toList, "Explicit".toList⟩)
      (fun _ => some (⟨"id1".toList, "x".toList, "Explicit".toList⟩, 0))
      (fun _ => some (⟨"id1".toList, "x".toList, "Explicit".toList⟩, 0))
      true "[ ]".toList = none :=
  findStatIdSU_empty_normalization _ _ _ _ true "[ ]".toList (by decide)

/-! ## Rate limiter: minimum wait across violating tiers (C2) -/

theorem foldl_minWaitStep_none (now : Nat) : ∀ (l : List RateLimitTier) (acc : Option Nat),
    l.foldl (minWaitStep now) acc = none ↔
      acc = none ∧ ∀ t ∈ l, tierViolation now t = none := by
  intro l
  induction l with
  | nil => intro acc; simp
  | cons t rest ih =>
    intro acc
    rw [List.foldl_cons, ih]
    constructor
    · rintro ⟨hstep, hrest⟩
      rw [minWaitStep] at hstep
      cases hv : tierViolation now t with
      | none =>
        rw [hv] at hstep
        exact ⟨hstep, fun u hu => by
          rcases List.mem_cons.mp hu with rfl | hu'
          · exact hv
          · exact hrest u hu'⟩
      | some w =>
        rw [hv] at hstep
        cases acc <;> simp at hstep
    · rintro ⟨hacc, hall⟩
      rw [minWaitStep, hall t (by simp), hacc]
      exact ⟨rfl, fun u hu => hall u (by simp [hu])⟩

theorem foldl_minWaitStep_some (now : Nat) : ∀ (l : List RateLimitTier) (acc : Option Nat)
    (w : Nat), l.foldl (minWaitStep now) acc = some w →
      (acc = some w ∨ ∃ t ∈ l, tierViolation now t = some w) ∧
        (∀ m, acc = some m → w ≤ m) ∧
        (∀ t ∈ l, ∀ v, tierViolation now t = some v → w ≤ v) := by
  intro l
  induction l with
  | nil =>
    intro acc w h
    simp only [List.foldl_nil] at h
    exact ⟨Or.inl h, fun m hm => by rw [h] at hm; exact Nat.le_of_eq (Option.some_inj.mp hm),
      fun t ht => by simp at ht⟩
  | cons t rest ih =>
    intro acc w h
    rw [List.foldl_cons] at h
    have hstep := ih (minWaitStep now acc t) w h
    cases hv : tierViolation now t with
    | none =>
      have hid : minWaitStep now acc t = acc := by rw [minWaitStep, hv]
      rw [hid] at hstep
      refine ⟨?_, hstep.2.1, ?_⟩
      · rcases hstep.1 with h1 | ⟨u, hu, hu2⟩
        · exact Or.inl h1
        · exact Or.inr ⟨u, by simp [hu], hu2⟩
      · intro u hu v hv2
        rcases List.mem_cons.mp hu with rfl | hu'
        · rw [hv] at hv2; cases hv2
        · exact hstep.2.2 u hu' v hv2
    | some v0 =>
      cases acc with
      | none =>
        have hid : minWaitStep now none t = some v0 := by rw [minWaitStep, hv]
        rw [hid] at hstep
        refine ⟨?_, ?_, ?_⟩
        · rcases hstep.1 with h1 | ⟨u, hu, hu2⟩
          · exact Or.inr ⟨t, by simp, by rw [hv, h1]⟩
          · exact Or.inr ⟨u, by simp [hu], hu2⟩
        · intro m hm; cases hm
        · intro u hu v hv2
          rcases List.mem_cons.mp hu with rfl | hu'
          · rw [hv] at hv2
            have hwv : w ≤ v0 := hstep.2.1 v0 rfl
            exact Nat.le_trans hwv (Nat.le_of_eq (Option.some_inj.mp hv2))
          · exact hstep.2.2 u hu' v hv2
      | some m0 =>
        have hid : minWaitStep now (some m0) t = some (Nat.min m0 v0) := by
          rw [minWaitStep, hv]
        rw [hid] at hstep
        have hwmin : w ≤ Nat.min m0 v0 := hstep.2.1 _ rfl
        refine ⟨?_, ?_, ?_⟩
        · rcases hstep.1 with h1 | ⟨u, hu, hu2⟩
          · have := Option.some_inj.mp h1
            have hch : Nat.min m0 v0 = m0 ∨ Nat.min m0 v0 = v0 := by
              by_cases hle : m0 ≤ v0
              · exact Or.inl (by simp [Nat.min, hle])
              · exact Or.inr (by simp [Nat.min, hle]; omega)
            rcases hch with hmin | hmin
            · exact Or.inl (by rw [← this, hmin])
            · exact Or.inr ⟨t, by simp, by rw [hv, ← this, hmin]⟩
          · exact Or.inr ⟨u, by simp [hu], hu2⟩
        · intro m hm
          cases Option.some_inj.mp hm
          exact Nat.le_trans hwmin (Nat.min_le_left _ _)
        · intro u hu v hv2
          rcases List.mem_cons.mp hu with rfl | hu'
          · rw [hv] at hv2
            cases Option.some_inj.mp hv2
            exact Nat.le_trans hwmin (Nat.min_le_right _ _)
          · exact hstep.2.2 u hu' v hv2

/-- Claim C2: whenever at least one (lazily refreshed) tier is
window-exceeded or restricted, `checkAndIncrementLimit` returns
not-allowed with a wait time that is the wait of one of the violating
tiers and is less than or equal to the wait of every violating tier —
the minimum, not the first violator scanned and not the maximum. -/
theorem checkAndIncrementLimit_min_wait (now : Nat) (tiers : List RateLimitTier)
    (h : ∃ t ∈ refreshAll now tiers, (tierViolation now t).isSome = true) :
    (checkAndIncrementLimit now tiers).2.allowed = false ∧
      ∃ w, (checkAndIncrementLimit now tiers).2.timeToWait = some w ∧
        (∃ t ∈ refreshAll now tiers, tierViolation now t = some w) ∧
        ∀ t ∈ refreshAll now tiers, ∀ v, tierViolation now t = some v → w ≤ v := by
  obtain ⟨t0, ht0, hv⟩ := h
  cases hf : (refreshAll now tiers).foldl (minWaitStep now) none with
  | none =>
    have hall := (foldl_minWaitStep_none now _ none).mp hf
    rw [hall.2 t0 ht0] at hv
    simp at hv
  | some w =>
    have hc := foldl_minWaitStep_some now _ none w hf
    have heq : checkAndIncrementLimit now tiers = (refreshAll now tiers, ⟨false, some w⟩) := by
      simp only [checkAndIncrementLimit]
      rw [hf]
    rw [heq]
    refine ⟨rfl, w, rfl, ?_, hc.2.2⟩
    rcases hc.1 with h1 | h1
    · simp at h1
    · exact h1

/-- Witness for C2: the first scanned violator waits 10 seconds, a later
restricted tier only 2; the reported wait is the minimum 2. -/
theorem checkAndIncrementLimit_min_wait_witness :
    (checkAndIncrementLimit 1000
        [⟨5, 5, 10000, 0, 1000⟩, ⟨0, 15, 60000, 3000, 1000⟩]).2.allowed = false ∧
      ∃ w, (checkAndIncrementLimit 1000
          [⟨5, 5, 10000, 0, 1000⟩, ⟨0, 15, 60000, 3000, 1000⟩]).2.timeToWait = some w ∧
        (∃ t ∈ refreshAll 1000 [⟨5, 5, 10000, 0, 1000⟩, ⟨0, 15, 60000, 3000, 1000⟩],
          tierViolation 1000 t = some w) ∧
        ∀ t ∈ refreshAll 1000 [⟨5, 5, 10000, 0, 1000⟩, ⟨0, 15, 60000, 3000, 1000⟩],
          ∀ v, tierViolation 1000 t = some v → w ≤ v :=
  checkAndIncrementLimit_min_wait 1000
    [⟨5, 5, 10000, 0, 1000⟩, ⟨0, 15, 60000, 3000, 1000⟩] (by decide)

/-- Claim C8: with the default three tiers (max 5 per 10s, max 15 per 60s,
max 30 per 300s), five check-and-reserve calls within 10 seconds are all
allowed, the sixth returns not-allowed with the strictly positive wait 5s,
and after the 10-second window elapses the first tier's hits reset to 0. -/
theorem defaultTiers_rate_limit_scenario :
    (let s0 := createDefaultTiers 0
     let r1 := checkAndIncrementLimit 0 s0
     let r2 := checkAndIncrementLimit 1000 r1.1
     let r3 := checkAndIncrementLimit 2000 r2.1
     let r4 := checkAndIncrementLimit 3000 r3.1
     let r5 := checkAndIncrementLimit 4000 r4.1
     let r6 := checkAndIncrementLimit 5000 r5.1
     r1.2.allowed = true ∧ r2.2.allowed = true ∧ r3.2.allowed = true ∧
       r4.2.allowed = true ∧ r5.2.allowed = true ∧
       r6.2.allowed = false ∧ r6.2.timeToWait = some 5 ∧
       0 < (r6.2.timeToWait.getD 0) ∧
       (refreshAll 10000 r6.1).map (fun t => t.hits) = [0, 5, 5]) := by
  decide

/-! ## Header reconciliation: per-tier fault tolerance (C6) -/

/-- Claim C6: when the rules/states headers split into three tuples each
and the tuple at position 2 is unparseable while positions 0 and 1 parse,
header reconciliation still overwrites the tiers at positions 0 and 1
from their parsed data, leaves tier 2 (and everything after it)
untouched, and reports 2 tiers updated. -/
theorem tryUpdateTiersFromHeaders_skips_malformed (now : Nat)
    (ruleHeader stateHeader r0 r1 r2 s0 s1 s2 : List Char)
    (t0 t1 t2 : RateLimitTier) (rest : List RateLimitTier) (d0 d1 : TierData)
    (hr : splitClean ruleHeader = [r0, r1, r2])
    (hs : splitClean stateHeader = [s0, s1, s2])
    (h0 : tupleData now r0 s0 = some d0)
    (h1 : tupleData now r1 s1 = some d1)
    (h2 : tupleData now r2 s2 = none) :
    tryUpdateTiersFromHeaders now ruleHeader stateHeader (t0 :: t1 :: t2 :: rest) =
      (tierFromData now d0 :: tierFromData now d1 :: t2 :: rest, 2) := by
  have hstep0 : headersStep now [r0, r1, r2] [s0, s1, s2]
      (t0 :: t1 :: t2 :: rest, 0, false) 0 =
      (tierFromData now d0 :: t1 :: t2 :: rest, 1, false) := by
    simp [headersStep, h0]
  have hstep1 : headersStep now [r0, r1, r2] [s0, s1, s2]
      (tierFromData now d0 :: t1 :: t2 :: rest, 1, false) 1 =
      (tierFromData now d0 :: tierFromData now d1 :: t2 :: rest, 2, false) := by
    simp [headersStep, h1]
  have hstep2 : headersStep now [r0, r1, r2] [s0, s1, s2]
      (tierFromData now d0 :: tierFromData now d1 :: t2 :: rest, 2, false) 2 =
      (tierFromData now d0 :: tierFromData now d1 :: t2 :: rest, 2, false) := by
    simp [headersStep, h2]
  simp only [tryUpdateTiersFromHeaders, hr, hs, List.length_cons, List.length_nil,
    Nat.max_self]
  rw [show List.range 3 = [0, 1, 2] from rfl]
  rw [List.foldl_cons, hstep0, List.foldl_cons, hstep1, List.foldl_cons, hstep2,
    List.foldl_nil]

/-- Witness for C6: headers with a malformed third tuple still update the
first two default tiers and count 2. -/
theorem tryUpdateTiersFromHeaders_skips_malformed_witness :
    tryUpdateTiersFromHeaders 12345 "5:10:60,15:60:120,bad".toList
        "2:10:0,3:60:0,1:60".toList
        [⟨0, 5, 10000, 0, 0⟩, ⟨0, 15, 60000, 0, 0⟩, ⟨0, 30, 300000, 0, 0⟩] =
      (tierFromData 12345 ⟨2, 5, 10000, 0⟩ :: tierFromData 12345 ⟨3, 15, 60000, 0⟩ ::
        (⟨0, 30, 300000, 0, 0⟩ : RateLimitTier) :: [], 2) :=
  tryUpdateTiersFromHeaders_skips_malformed 12345 _ _
    "5:10:60".toList "15:60:120".toList "bad".toList
    "2:10:0".toList "3:60:0".toList "1:60".toList
    ⟨0, 5, 10000, 0, 0⟩ ⟨0, 15, 60000, 0, 0⟩ ⟨0, 30, 300000, 0, 0⟩ []
    ⟨2, 5, 10000, 0⟩ ⟨3, 15, 60000, 0⟩
    (by decide) (by decide) (by decide) (by decide) (by decide)

/-! ## Hits-vs-max invariant (C5) -/

theorem tupleData_hits_le (now : Nat) (r s : List Char) (d : TierData)
    (h : tupleData now r s = some d) : d.hits ≤ d.max := by
  simp only [tupleData] at h
  split at h
  · split at h
    · split at h
      · cases Option.some_inj.mp h
        exact Int.toNat_le_toNat (min_le_right _ _)
      · cases h
    · cases h
  · cases h

theorem refreshTier_hits_le (now : Nat) (t : RateLimitTier) (h : t.hits ≤ t.max) :
    (refreshTier now t).hits ≤ (refreshTier now t).max := by
  rw [refreshTier]
  split <;> split <;> first | exact h | exact Nat.zero_le _

theorem tierViolation_none_lt (now : Nat) (t : RateLimitTier)
    (h : tierViolation now t = none) : t.hits < t.max := by
  rw [tierViolation] at h
  split at h
  · cases h
  · split at h
    · cases h
    · rename_i hge
      exact Nat.lt_of_not_le hge

theorem headersStep_inv (now : Nat) (rules states : List (List Char))
    (tiers : List RateLimitTier) (count : Nat) (stopped : Bool) (i : Nat)
    (h : ∀ t ∈ tiers, t.hits ≤ t.max) :
    ∀ t ∈ (headersStep now rules states (tiers, count, stopped) i).1,
      t.hits ≤ t.max := by
  intro t ht
  simp only [headersStep] at ht
  split at ht
  · exact h t ht
  · split at ht
    · rename_i rule state hrule hstate
      split at ht
      · exact h t ht
      · rename_i d hd
        split at ht
        · rcases List.mem_or_eq_of_mem_set ht with h1 | rfl
          · exact h t h1
          · exact tupleData_hits_le now rule state d hd
        · split at ht
          · rcases List.mem_append.mp ht with h1 | h1
            · exact h t h1
            · rcases List.mem_singleton.mp h1 with rfl
              exact tupleData_hits_le now rule state d hd
          · exact h t ht
    · exact h t ht

theorem foldl_headersStep_inv (now : Nat) (rules states : List (List Char)) :
    ∀ (l : List Nat) (acc : List RateLimitTier × Nat × Bool),
      (∀ t ∈ acc.1, t.hits ≤ t.max) →
      ∀ t ∈ (l.foldl (headersStep now rules states) acc).1, t.hits ≤ t.max := by
  intro l
  induction l with
  | nil => intro acc h; simpa using h
  | cons i rest ih =>
    intro acc h
    rw [List.foldl_cons]
    obtain ⟨tiers, count, stopped⟩ := acc
    exact ih (headersStep now rules states (tiers, count, stopped) i)
      (headersStep_inv now rules states tiers count stopped i h)

/-- The rateLimit.ts variant that splits checking from incrementing
violates the invariant: six unconditional `incrementLimits` calls push the
first default tier's hits to 6, strictly above its max of 5 (C5
counterexample). -/
theorem incrementLimits_exceeds_max :
    ∃ t ∈ incrementLimits 0 (incrementLimits 0 (incrementLimits 0 (incrementLimits 0
      (incrementLimits 0 (incrementLimits 0 (createDefaultTiers 0)))))),
      t.max < t.hits := by
  decide

/-- Claim C5 (amended): in every state reachable from the default tiers by
the part_009 operations — check-and-reserve, explicit restriction, header
reconciliation, lazy refresh — every tier's hits stay at or below its max.
The standalone unconditional increment of the rateLimit.ts variant is not
among these operations; it breaks the bound. -/
theorem reachable_hits_le_max (s : List RateLimitTier) (h : Reachable s) :
    ∀ t ∈ s, t.hits ≤ t.max := by
  induction h with
  | init now =>
    intro t ht
    simp only [createDefaultTiers] at ht
    rcases List.mem_cons.mp ht with rfl | ht
    · exact Nat.zero_le _
    rcases List.mem_cons.mp ht with rfl | ht
    · exact Nat.zero_le _
    rcases List.mem_cons.mp ht with rfl | ht
    · exact Nat.zero_le _
    · simp at ht
  | check now s hs ih =>
    intro t ht
    cases hf : (refreshAll now s).foldl (minWaitStep now) none with
    | some w =>
      have heq : (checkAndIncrementLimit now s).1 = refreshAll now s := by
        simp only [checkAndIncrementLimit]
        rw [hf]
      rw [heq] at ht
      obtain ⟨u, hu, rfl⟩ := List.mem_map.mp ht
      exact refreshTier_hits_le now u (ih u hu)
    | none =>
      have heq : (checkAndIncrementLimit now s).1 =
          (refreshAll now s).map (fun t => { t with hits := t.hits + 1 }) := by
        simp only [checkAndIncrementLimit]
        rw [hf]
      rw [heq] at ht
      obtain ⟨u, hu, rfl⟩ := List.mem_map.mp ht
      have hnone := ((foldl_minWaitStep_none now _ none).mp hf).2 u hu
      exact Nat.succ_le_of_lt (tierViolation_none_lt now u hnone)
  | restrict now secs s hs ih =>
    intro t ht
    simp only [setRestriction] at ht
    obtain ⟨u, hu, rfl⟩ := List.mem_map.mp ht
    exact ih u hu
  | headers now rh sh s hs ih =>
    intro t ht
    simp only [tryUpdateTiersFromHeaders] at ht
    exact foldl_headersStep_inv now (splitClean rh) (splitClean sh) _ (s, 0, false) ih t ht
  | status now s hs ih =>
    intro t ht
    obtain ⟨u, hu, rfl⟩ := List.mem_map.mp ht
    exact refreshTier_hits_le now u (ih u hu)

/-- Witness for C5: the invariant at the first tier of the state after one
check-and-reserve call on the default tiers. -/
theorem reachable_hits_le_max_witness :
    (⟨1, 5, 10000, 0, 0⟩ : RateLimitTier).hits ≤
      (⟨1, 5, 10000, 0, 0⟩ : RateLimitTier).max :=
  reachable_hits_le_max (checkAndIncrementLimit 0 (createDefaultTiers 0)).1
    (Reachable.check 0 (createDefaultTiers 0) (Reachable.init 0))
    ⟨1, 5, 10000, 0, 0⟩ (by decide)

/-! ## Stat catalog cache single-flight (C4) -/

/-- C4 counterexample for the `stats.ts` variant: with no snapshot and no
fetch in flight, the first call starts the fetch, but a second concurrent
call gets the availability error instead of the shared pending operation,
because `setupFetchPromise` stamped `lastFetchTime` and `canAttemptFetch`
now throttles. Only the sharing half of the claim fails: the network call
count stays 1. -/
theorem fetchStatsTs_second_caller_counterexample :
    (let s0 : TsFetchState := ⟨false, 0, none, 0⟩
     let r1 := fetchStatsTs 60000 s0
     let r2 := fetchStatsTs 60000 r1.1
     r1.2 = .pending 0 ∧ r2.2 = .unavailableError ∧ r2.1.networkCalls = 1) := by
  decide

/-- Claim C4 (amended): with no snapshot and no fetch in flight, two
concurrent `fetchStats` calls trigger exactly one network request in both
variants; in the `stat-utils.ts` variant both callers share the same
pending operation, while in the `stats.ts` variant the second caller is
throttled to the availability error instead of sharing it. -/
theorem fetchStats_single_flight (now1 now2 : Nat) (s : SuFetchState) (ts : TsFetchState)
    (hc : s.cacheTimestamp = none) (hp : s.fetchPromise = none)
    (hth : cacheRetryInterval ≤ now1 - s.lastFetchAttempt)
    (htc : ts.cacheReady = false) (htp : ts.fetchPromise = none)
    (htt : cacheRetryInterval ≤ now1 - ts.lastFetchTime)
    (hlt : now2 - now1 < cacheRetryInterval) :
    ((fetchStatsSU now1 s).2 = .pending s.networkCalls ∧
      (fetchStatsSU now1 s).1.networkCalls = s.networkCalls + 1 ∧
      (fetchStatsSU now2 (fetchStatsSU now1 s).1).2 = .pending s.networkCalls ∧
      (fetchStatsSU now2 (fetchStatsSU now1 s).1).1.networkCalls = s.networkCalls + 1) ∧
    ((fetchStatsTs now1 ts).2 = .pending ts.networkCalls ∧
      (fetchStatsTs now1 ts).1.networkCalls = ts.networkCalls + 1 ∧
      (fetchStatsTs now2 (fetchStatsTs now1 ts).1).2 = .unavailableError ∧
      (fetchStatsTs now2 (fetchStatsTs now1 ts).1).1.networkCalls = ts.networkCalls + 1) := by
  have h1 : ¬ (now1 - s.lastFetchAttempt < cacheRetryInterval) := Nat.not_lt.mpr hth
  have heq1 : fetchStatsSU now1 s =
      ({ s with
          lastFetchAttempt := now1
          fetchPromise := some s.networkCalls
          networkCalls := s.networkCalls + 1 }, .pending s.networkCalls) := by
    simp only [fetchStatsSU, hp, hc, startFetchSU]
    rw [if_neg h1]
  have heq2 : fetchStatsSU now2 (fetchStatsSU now1 s).1 =
      ((fetchStatsSU now1 s).1, .pending s.networkCalls) := by
    rw [heq1]
    simp [fetchStatsSU]
  have h3 : ¬ (cacheRetryInterval ≤ now2 - now1) := Nat.not_le.mpr hlt
  have heqt1 : fetchStatsTs now1 ts =
      ({ ts with
          lastFetchTime := now1
          fetchPromise := some ts.networkCalls
          networkCalls := ts.networkCalls + 1 }, .pending ts.networkCalls) := by
    simp [fetchStatsTs, htc, htp, htt]
  have heqt2 : fetchStatsTs now2 (fetchStatsTs now1 ts).1 =
      ((fetchStatsTs now1 ts).1, .unavailableError) := by
    rw [heqt1]
    simp [fetchStatsTs, htc, h3]
  rw [heq2, heq1, heqt2, heqt1]
  exact ⟨⟨rfl, rfl, rfl, rfl⟩, rfl, rfl, rfl, rfl⟩

/-- Witness for C4 at concrete states and times. -/
theorem fetchStats_single_flight_witness :
    ((fetchStatsSU 60000 ⟨none, 0, none, 0⟩).2 = .pending 0 ∧
      (fetchStatsSU 60000 ⟨none, 0, none, 0⟩).1.networkCalls = 0 + 1 ∧
      (fetchStatsSU 60050 (fetchStatsSU 60000 ⟨none, 0, none, 0⟩).1).2 = .pending 0 ∧
      (fetchStatsSU 60050 (fetchStatsSU 60000 ⟨none, 0, none, 0⟩).1).1.networkCalls = 0 + 1) ∧
    ((fetchStatsTs 60000 ⟨false, 0, none, 0⟩).2 = .pending 0 ∧
      (fetchStatsTs 60000 ⟨false, 0, none, 0⟩).1.networkCalls = 0 + 1 ∧
      (fetchStatsTs 60050 (fetchStatsTs 60000 ⟨false, 0, none, 0⟩).1).2 = .unavailableError ∧
      (fetchStatsTs 60050 (fetchStatsTs 60000 ⟨false, 0, none, 0⟩).1).1.networkCalls = 0 + 1) :=
  fetchStats_single_flight 60000 60050 ⟨none, 0, none, 0⟩ ⟨false, 0, none, 0⟩
    rfl rfl (by decide) rfl rfl (by decide) (by decide)

/-! ## Query builder (C9) -/

theorem length_filterMap_isSome {α β : Type} (f : α → Option β) (l : List α) :
    (l.filterMap f).length = l.countP (fun a => (f a).isSome) := by
  induction l with
  | nil => rfl
  | cons a rest ih =>
    rw [List.filterMap_cons, List.countP_cons]
    cases hf : f a with
    | none => simp [hf, ih]
    | some b => simp [hf, ih]

theorem length_resolveFilters (resolver : List Char → Option (List Char))
    (stats : List (List Char)) :
    (resolveFilters resolver stats).length =
      stats.countP (fun st =>
        match resolver st with
        | none => false
        | some i => !i.isEmpty) := by
  rw [resolveFilters, length_filterMap_isSome]
  refine List.countP_congr ?_
  intro st _
  cases hr : resolver st with
  | none => simp [hr]
  | some i =>
    cases hi : i.isEmpty with
    | true => simp [hr, hi]
    | false => simp [hr, hi]

/-- Claim C9: when the item class is absent, empty, or mapped, the query
builder gives a unique item (rarity Unique, truthy name and base type) an
exact name-and-type query with no stat filters; for any other item it
resolves the stat lines, keeps exactly the lines whose resolver result is
a non-empty id (dropped lines do not fail the build), and fails with
noValidStats exactly when no line resolves. -/
theorem buildQuery_filters (classMap resolver : List Char → Option (List Char))
    (incl : Bool) (item : ParsedItem)
    (hclass : ∀ c, item.itemClass = some c →
      c.isEmpty = true ∨ (classMap c).isSome = true) :
    (item.rarity = some uniqueRarity ∧ optTruthy item.name = true ∧
        optTruthy item.baseType = true →
      buildQuery classMap resolver incl item =
        .ok ⟨item.name, item.baseType, [], categoryOf classMap item,
          ilvlOf incl item⟩) ∧
    (¬ (item.rarity = some uniqueRarity ∧ optTruthy item.name = true ∧
        optTruthy item.baseType = true) →
      (resolveFilters resolver item.stats = [] →
        buildQuery classMap resolver incl item = .noValidStats) ∧
      (resolveFilters resolver item.stats ≠ [] →
        buildQuery classMap resolver incl item =
          .ok ⟨none, none, resolveFilters resolver item.stats,
            categoryOf classMap item, ilvlOf incl item⟩) ∧
      (resolveFilters resolver item.stats).length =
        item.stats.countP (fun st =>
          match resolver st with
          | none => false
          | some i => !i.isEmpty)) := by
  have hcu : (match item.itemClass with
      | some c => !c.isEmpty && (classMap c).isNone
      | none => false) = false := by
    cases hic : item.itemClass with
    | none => rfl
    | some c =>
      rcases hclass c hic with h | h
      · simp [h]
      · cases hm : classMap c with
        | none => rw [hm] at h; simp at h
        | some v => simp [hm]
  have hbq : buildQuery classMap resolver incl item =
      buildQueryCore classMap resolver incl item := by
    simp only [buildQuery, hcu, Bool.false_eq_true, if_false]
  constructor
  · rintro ⟨hr, hn, hb⟩
    rw [hbq, buildQueryCore, if_pos ⟨hr, hn, hb⟩]
  · intro hneg
    refine ⟨?_, ?_, length_resolveFilters resolver item.stats⟩
    · intro hfe
      rw [hbq]
      simp only [buildQueryCore]
      rw [if_neg hneg]
      simp [hfe]
    · intro hne
      rw [hbq]
      simp only [buildQueryCore]
      rw [if_neg hneg]
      cases hfl : resolveFilters resolver item.stats with
      | nil => exact absurd hfl hne
      | cons a as => simp [hfl]

/-- Witness for C9: two resolvable stat lines and one unresolvable line
yield exactly two filters and a successful build. -/
theorem buildQuery_filters_witness :
    buildQuery (fun _ => none)
        (fun st => if st = "a".toList then some "ida".toList
          else if st = "b".toList then some "idb".toList else none)
        false
        ⟨none, none, ["a".toList, "b".toList, "zz".toList],
          some "Rare".toList, none, none⟩ =
      .ok ⟨none, none, [⟨"ida".toList, ⟨0, 1⟩⟩, ⟨"idb".toList, ⟨0, 1⟩⟩],
        none, none⟩ ∧
    (resolveFilters
        (fun st => if st = "a".toList then some "ida".toList
          else if st = "b".toList then some "idb".toList else none)
        ["a".toList, "b".toList, "zz".toList]).length = 2 := by
  have h := buildQuery_filters (fun _ => none)
    (fun st => if st = "a".toList then some "ida".toList
      else if st = "b".toList then some "idb".toList else none)
    false
    ⟨none, none, ["a".toList, "b".toList, "zz".toList],
      some "Rare".toList, none, none⟩
    (fun c hc => by cases hc)
  refine ⟨?_, by decide⟩
  have h2 := (h.2 (by decide)).2.1 (by decide)
  rw [h2]
  decide
